import Mathlib

/- Shallow embedding of the wtfis enrichment and report pipeline:
   src/wtfis/clients/ipwhois.py and src/wtfis/ui/view.py.
   Helpers that live in files outside src/ (wtfis/utils.py, wtfis/ui/base.py,
   wtfis/clients/base.py) are modelled from the spec and marked as such. -/

namespace Wtfis

/-- Connection sub-record of an IPWhois enrichment record (models/ipwhois.py;
read by view.py as enrich.connection.asn / .org / .isp). -/
structure Connection where
  asn : String
  org : String
  isp : String
deriving DecidableEq, Repr

/-- IPWhois enrichment record: the geolocation-only provider variant.
The `ip` field is the IP address reported inside the provider response body. -/
structure IpWhois where
  ip : String
  connection : Connection
  city : Option String
  region : Option String
  country : Option String
deriving DecidableEq, Repr

/-- Shodan enrichment record: the service-rich provider variant
(the fields read by view.py). `services` stands for the ports/services data
consumed by the _gen_shodan_services helper. -/
structure ShodanIp where
  asn : Option String
  org : String
  isp : String
  city : Option String
  region_name : Option String
  country_name : Option String
  os : Option String
  tags : List String
  services : List String
  last_update : String
deriving DecidableEq, Repr

/-- Polymorphic enrichment value: view.py branches on isinstance(enrich, IpWhois). -/
inductive Enrichment where
  | ipwhois (w : IpWhois)
  | shodan (s : ShodanIp)
deriving DecidableEq, Repr

/-- Attributes of one historical resolution (models/virustotal.py fields read
by the code in src/). `stats` stands for ip_address_last_analysis_stats,
kept as its rendered text. -/
structure ResolutionAttributes where
  ip_address : String
  stats : String
  date : String
deriving DecidableEq, Repr

/-- One element of Resolutions.data. -/
structure ResolutionData where
  attributes : ResolutionAttributes
deriving DecidableEq, Repr

/-- Meta block of the resolutions response, carrying the total count. -/
structure ResolutionsMeta where
  count : Nat
deriving DecidableEq, Repr

/-- Resolutions model: the ordered fetched data plus the provider-reported
total count (which may exceed the number actually fetched). -/
structure Resolutions where
  data : List ResolutionData
  meta : ResolutionsMeta
deriving DecidableEq, Repr

/-- Raw parsed JSON body of one ipwho.is response: the success flag checked by
get_ipwhois, plus the record that IpWhois.parse_obj builds from the same body. -/
structure RawResponse where
  success : Bool
  record : IpWhois
deriving DecidableEq, Repr

/-- Modelled from the spec: the transport layer BaseClient._get
(wtfis/clients/base.py, not in src/). Per section 4.1 of the spec a
network/auth failure propagates to the caller rather than being swallowed,
so the transport is a function into Except; the error carries no data. -/
abbrev Transport : Type := String → Except Unit RawResponse

/-- IpWhoisClient.get_ipwhois (src/wtfis/clients/ipwhois.py lines 14-16):
parse the body when success is True, otherwise None; a transport error
propagates unchanged. -/
def get_ipwhois (g : Transport) (ip : String) : Except Unit (Option IpWhois) :=
  match g ip with
  | Except.error e => Except.error e
  | Except.ok result => Except.ok (if result.success then some result.record else none)

/-- Keys of the accumulated map, in insertion order. -/
def mapKeys (m : List (String × IpWhois)) : List String :=
  m.map Prod.fst

/-- Python dict insertion: replace the value in place when the key is already
present, otherwise append. Keys stay distinct, in first-insertion order. -/
def dictInsert (m : List (String × IpWhois)) (k : String) (v : IpWhois) :
    List (String × IpWhois) :=
  if k ∈ mapKeys m then
    m.map (fun p => if p.1 = k then (k, v) else p)
  else
    m ++ [(k, v)]

/-- Loop of IpWhoisClient.bulk_get_ipwhois (lines 23-29), instrumented:
alongside the accumulated map it returns the log of the IP addresses passed to
the provider, in call order. The break fires when idx reaches
max_ips_to_enrich; a successful parse is stored under the response record's
own ip field; a transport error propagates out of the loop. -/
def bulkLoop (g : Transport) (maxIps : Nat) :
    List ResolutionData → Nat → List (String × IpWhois) → List String →
    Except Unit (List (String × IpWhois)) × List String
  | [], _, m, calls => (Except.ok m, calls)
  | r :: rest, idx, m, calls =>
    if idx = maxIps then
      (Except.ok m, calls)
    else
      match get_ipwhois g r.attributes.ip_address with
      | Except.error e => (Except.error e, calls ++ [r.attributes.ip_address])
      | Except.ok (some w) =>
          bulkLoop g maxIps rest (idx + 1) (dictInsert m w.ip w)
            (calls ++ [r.attributes.ip_address])
      | Except.ok none =>
          bulkLoop g maxIps rest (idx + 1) m (calls ++ [r.attributes.ip_address])

/-- IpWhoisClient.bulk_get_ipwhois (lines 18-30): the returned IpWhoisMap,
as the association list built by the loop; transport errors propagate. -/
def bulk_get_ipwhois (g : Transport) (resolutions : Resolutions) (maxIps : Nat) :
    Except Unit (List (String × IpWhois)) :=
  (bulkLoop g maxIps resolutions.data 0 [] []).1

/-- Provider invocations made by bulk_get_ipwhois, in call order
(instrumentation of the same loop). -/
def bulk_get_ipwhois_calls (g : Transport) (resolutions : Resolutions) (maxIps : Nat) :
    List String :=
  (bulkLoop g maxIps resolutions.data 0 [] []).2

/-- IpWhoisClient.single_get_ipwhois (lines 32-37): at most one entry, keyed
by the caller-supplied ip argument. -/
def single_get_ipwhois (g : Transport) (ip : String) :
    Except Unit (List (String × IpWhois)) :=
  match get_ipwhois g ip with
  | Except.error e => Except.error e
  | Except.ok (some w) => Except.ok (dictInsert [] ip w)
  | Except.ok none => Except.ok []

/-- Whether get_ipwhois on this resolution's IP returns a parsed record. -/
def lookup_succeeded (g : Transport) (r : ResolutionData) : Bool :=
  match get_ipwhois g r.attributes.ip_address with
  | Except.ok (some _) => true
  | _ => false

/-- IPs of the resolutions among the first k whose provider lookup succeeded,
in original order. -/
def successIps (g : Transport) (l : List ResolutionData) (k : Nat) : List String :=
  ((l.take k).filter (lookup_succeeded g)).map (fun r => r.attributes.ip_address)

/-- A provider echoes when every response body reports the queried IP in its
ip field. -/
def echoes (g : Transport) : Prop :=
  ∀ ip resp, g ip = Except.ok resp → resp.record.ip = ip

/- Lemmas about dictInsert. -/

theorem mapKeys_dictInsert_of_mem {m : List (String × IpWhois)} {k : String}
    (v : IpWhois) (hk : k ∈ mapKeys m) :
    mapKeys (dictInsert m k v) = mapKeys m := by
  rw [dictInsert, if_pos hk]
  simp only [mapKeys, List.map_map]
  refine List.map_congr_left (fun p _ => ?_)
  by_cases hp : p.1 = k
  · simp [hp]
  · simp [hp]

theorem mapKeys_dictInsert_of_not_mem {m : List (String × IpWhois)} {k : String}
    (v : IpWhois) (hk : k ∉ mapKeys m) :
    mapKeys (dictInsert m k v) = mapKeys m ++ [k] := by
  rw [dictInsert, if_neg hk]
  simp [mapKeys]

theorem mem_mapKeys_dictInsert {m : List (String × IpWhois)} {k s : String}
    {v : IpWhois} :
    s ∈ mapKeys (dictInsert m k v) ↔ s ∈ mapKeys m ∨ s = k := by
  by_cases hk : k ∈ mapKeys m
  · rw [mapKeys_dictInsert_of_mem v hk]
    constructor
    · exact fun h => Or.inl h
    · rintro (h | rfl)
      · exact h
      · exact hk
  · rw [mapKeys_dictInsert_of_not_mem v hk]
    simp

theorem length_mapKeys_dictInsert {m : List (String × IpWhois)} {k : String}
    {v : IpWhois} :
    (mapKeys (dictInsert m k v)).length ≤ (mapKeys m).length + 1 := by
  by_cases hk : k ∈ mapKeys m
  · rw [mapKeys_dictInsert_of_mem v hk]
    omega
  · rw [mapKeys_dictInsert_of_not_mem v hk]
    simp

theorem nodup_mapKeys_dictInsert {m : List (String × IpWhois)} {k : String}
    {v : IpWhois} (h : (mapKeys m).Nodup) :
    (mapKeys (dictInsert m k v)).Nodup := by
  by_cases hk : k ∈ mapKeys m
  · rw [mapKeys_dictInsert_of_mem v hk]
    exact h
  · rw [mapKeys_dictInsert_of_not_mem v hk]
    exact List.Nodup.append h (List.nodup_singleton k)
      (fun a ha hb => absurd ((List.mem_singleton.mp hb) ▸ ha) hk)

theorem mem_dictInsert {m : List (String × IpWhois)} {k s : String}
    {v w : IpWhois} (h : (s, w) ∈ dictInsert m k v) :
    (s, w) ∈ m ∨ (s = k ∧ w = v) := by
  unfold dictInsert at h
  by_cases hk : k ∈ mapKeys m
  · rw [if_pos hk] at h
    rcases List.mem_map.mp h with ⟨p, hp, hpe⟩
    by_cases hpk : p.1 = k
    · rw [if_pos hpk] at hpe
      right
      exact ⟨(Prod.mk.injEq _ _ _ _ ▸ hpe.symm).1.symm ▸ rfl,
        (Prod.mk.injEq _ _ _ _ ▸ hpe.symm).2.symm ▸ rfl⟩
    · rw [if_neg hpk] at hpe
      exact Or.inl (hpe ▸ hp)
  · rw [if_neg hk] at h
    rcases List.mem_append.mp h with h | h
    · exact Or.inl h
    · right
      rcases List.mem_singleton.mp h with he
      exact ⟨(Prod.mk.injEq _ _ _ _ ▸ he).1, (Prod.mk.injEq _ _ _ _ ▸ he).2⟩

theorem get_ipwhois_ok_some_ip {g : Transport} {ip : String} {w : IpWhois}
    (hecho : echoes g) (hg : get_ipwhois g ip = Except.ok (some w)) :
    w.ip = ip := by
  cases hres : g ip with
  | error e => simp [get_ipwhois, hres] at hg
  | ok resp =>
    simp only [get_ipwhois, hres] at hg
    by_cases hs : resp.success
    · rw [if_pos hs] at hg
      have hw : resp.record = w := by
        injection hg with h1
        injection h1
      exact hw ▸ hecho ip resp hres
    · rw [if_neg hs] at hg
      simp at hg

theorem lookup_succeeded_of_some {g : Transport} {r : ResolutionData} {w : IpWhois}
    (hg : get_ipwhois g r.attributes.ip_address = Except.ok (some w)) :
    lookup_succeeded g r = true := by
  simp [lookup_succeeded, hg]

theorem lookup_succeeded_of_none {g : Transport} {r : ResolutionData}
    (hg : get_ipwhois g r.attributes.ip_address = Except.ok none) :
    lookup_succeeded g r = false := by
  simp [lookup_succeeded, hg]

/-- Invariant of the bulk enrichment loop for a run that returned a map:
key membership is governed by the successful lookups among the entries still
within the cap, the call log extends by exactly those entries, at most one key
is added per entry, and key distinctness is preserved. -/
theorem bulkLoop_ok_spec (g : Transport) (maxIps : Nat) :
    ∀ (l : List ResolutionData) (idx : Nat) (m0 : List (String × IpWhois))
      (c0 : List String) (mf : List (String × IpWhois)) (cf : List String),
      idx ≤ maxIps →
      bulkLoop g maxIps l idx m0 c0 = (Except.ok mf, cf) →
      (echoes g → ∀ s, s ∈ mapKeys mf ↔
        s ∈ mapKeys m0 ∨ s ∈ successIps g l (maxIps - idx)) ∧
      cf = c0 ++ (l.take (maxIps - idx)).map (fun r => r.attributes.ip_address) ∧
      (mapKeys mf).length ≤ (mapKeys m0).length + (maxIps - idx) ∧
      ((mapKeys m0).Nodup → (mapKeys mf).Nodup) := by
  intro l
  induction l with
  | nil =>
    intro idx m0 c0 mf cf _ h
    simp only [bulkLoop] at h
    obtain ⟨h1, h2⟩ := Prod.mk.injEq .. ▸ h
    have hm : m0 = mf := by injection h1
    subst hm
    subst h2
    simp [successIps]
  | cons r rest ih =>
    intro idx m0 c0 mf cf hidx h
    simp only [bulkLoop] at h
    by_cases hb : idx = maxIps
    · rw [if_pos hb] at h
      obtain ⟨h1, h2⟩ := Prod.mk.injEq .. ▸ h
      have hm : m0 = mf := by injection h1
      subst hm
      subst h2
      subst hb
      simp [successIps]
    · rw [if_neg hb] at h
      have hlt : idx < maxIps := lt_of_le_of_ne hidx hb
      have hsub : maxIps - idx = (maxIps - (idx + 1)) + 1 := by omega
      have htake : (r :: rest).take (maxIps - idx) =
          r :: rest.take (maxIps - (idx + 1)) := by
        rw [hsub, List.take_succ_cons]
      cases hg : get_ipwhois g r.attributes.ip_address with
      | error e =>
        rw [hg] at h
        obtain ⟨h1, _⟩ := Prod.mk.injEq .. ▸ h
        simp at h1
      | ok ow =>
        cases ow with
        | some w =>
          rw [hg] at h
          obtain ⟨hkeys, hcalls, hlen, hnod⟩ :=
            ih (idx + 1) (dictInsert m0 w.ip w)
              (c0 ++ [r.attributes.ip_address]) mf cf (by omega) h
          have hsucc : successIps g (r :: rest) (maxIps - idx) =
              r.attributes.ip_address :: successIps g rest (maxIps - (idx + 1)) := by
            simp [successIps, htake, List.filter_cons, lookup_succeeded_of_some hg]
          refine ⟨?_, ?_, ?_, ?_⟩
          · intro hecho s
            have hw : w.ip = r.attributes.ip_address :=
              get_ipwhois_ok_some_ip hecho hg
            rw [hkeys hecho s, hsucc]
            rw [mem_mapKeys_dictInsert]
            simp only [List.mem_cons, hw]
            tauto
          · rw [hcalls, htake]
            simp
          · calc (mapKeys mf).length
                ≤ (mapKeys (dictInsert m0 w.ip w)).length + (maxIps - (idx + 1)) := hlen
              _ ≤ ((mapKeys m0).length + 1) + (maxIps - (idx + 1)) :=
                  Nat.add_le_add_right length_mapKeys_dictInsert _
              _ ≤ (mapKeys m0).length + (maxIps - idx) := by omega
          · exact fun hn => hnod (nodup_mapKeys_dictInsert hn)
        | none =>
          rw [hg] at h
          obtain ⟨hkeys, hcalls, hlen, hnod⟩ :=
            ih (idx + 1) m0 (c0 ++ [r.attributes.ip_address]) mf cf (by omega) h
          have hsucc : successIps g (r :: rest) (maxIps - idx) =
              successIps g rest (maxIps - (idx + 1)) := by
            simp [successIps, htake, List.filter_cons, lookup_succeeded_of_none hg]
          refine ⟨?_, ?_, ?_, ?_⟩
          · intro hecho s
            rw [hkeys hecho s, hsucc]
          · rw [hcalls, htake]
            simp
          · omega
          · exact hnod

/-- The bulk loop returns a map (no failure) whenever no entry still within
the cap hits a transport error. -/
theorem bulkLoop_total (g : Transport) (maxIps : Nat) :
    ∀ (l : List ResolutionData) (idx : Nat) (m0 : List (String × IpWhois))
      (c0 : List String),
      idx ≤ maxIps →
      (∀ r ∈ l.take (maxIps - idx),
        ∃ resp, g r.attributes.ip_address = Except.ok resp) →
      ∃ mf cf, bulkLoop g maxIps l idx m0 c0 = (Except.ok mf, cf) := by
  intro l
  induction l with
  | nil =>
    intro idx m0 c0 _ _
    exact ⟨m0, c0, rfl⟩
  | cons r rest ih =>
    intro idx m0 c0 hidx hok
    by_cases hb : idx = maxIps
    · exact ⟨m0, c0, by simp [bulkLoop, hb]⟩
    · have hlt : idx < maxIps := lt_of_le_of_ne hidx hb
      have htake : (r :: rest).take (maxIps - idx) =
          r :: rest.take (maxIps - (idx + 1)) := by
        rw [show maxIps - idx = (maxIps - (idx + 1)) + 1 by omega, List.take_succ_cons]
      obtain ⟨resp, hresp⟩ := hok r (by rw [htake]; exact List.mem_cons_self _ _)
      have hrest : ∀ x ∈ rest.take (maxIps - (idx + 1)),
          ∃ resp, g x.attributes.ip_address = Except.ok resp := by
        intro x hx
        exact hok x (by rw [htake]; exact List.mem_cons_of_mem _ hx)
      by_cases hs : resp.success
      · have hget : get_ipwhois g r.attributes.ip_address =
            Except.ok (some resp.record) := by
          simp [get_ipwhois, hresp, hs]
        obtain ⟨mf, cf, hmf⟩ := ih (idx + 1) (dictInsert m0 resp.record.ip resp.record)
          (c0 ++ [r.attributes.ip_address]) (by omega) hrest
        refine ⟨mf, cf, ?_⟩
        simp only [bulkLoop, if_neg hb, hget]
        exact hmf
      · have hget : get_ipwhois g r.attributes.ip_address = Except.ok none := by
          simp [get_ipwhois, hresp, hs]
        obtain ⟨mf, cf, hmf⟩ := ih (idx + 1) m0
          (c0 ++ [r.attributes.ip_address]) (by omega) hrest
        refine ⟨mf, cf, ?_⟩
        simp only [bulkLoop, if_neg hb, hget]
        exact hmf

/-- Every pair the bulk loop holds is keyed by the record's own ip field. -/
theorem bulkLoop_pairs (g : Transport) (maxIps : Nat) :
    ∀ (l : List ResolutionData) (idx : Nat) (m0 : List (String × IpWhois))
      (c0 : List String) (mf : List (String × IpWhois)) (cf : List String),
      bulkLoop g maxIps l idx m0 c0 = (Except.ok mf, cf) →
      (∀ s w, (s, w) ∈ m0 → s = w.ip) →
      ∀ s w, (s, w) ∈ mf → s = w.ip := by
  intro l
  induction l with
  | nil =>
    intro idx m0 c0 mf cf h hm
    simp only [bulkLoop] at h
    obtain ⟨h1, h2⟩ := Prod.mk.injEq .. ▸ h
    have hmm : m0 = mf := by injection h1
    exact hmm ▸ hm
  | cons r rest ih =>
    intro idx m0 c0 mf cf h hm
    simp only [bulkLoop] at h
    by_cases hb : idx = maxIps
    · rw [if_pos hb] at h
      obtain ⟨h1, h2⟩ := Prod.mk.injEq .. ▸ h
      have hmm : m0 = mf := by injection h1
      exact hmm ▸ hm
    · rw [if_neg hb] at h
      cases hg : get_ipwhois g r.attributes.ip_address with
      | error e =>
        rw [hg] at h
        obtain ⟨h1, _⟩ := Prod.mk.injEq .. ▸ h
        simp at h1
      | ok ow =>
        cases ow with
        | some w =>
          rw [hg] at h
          refine ih (idx + 1) _ _ mf cf h ?_
          intro s w2 hsw
          rcases mem_dictInsert hsw with hin | ⟨hs, hw⟩
          · exact hm s w2 hin
          · rw [hs, hw]
        | none =>
          rw [hg] at h
          exact ih (idx + 1) _ _ mf cf h hm

/- Concrete inputs used by counterexamples and witnesses. -/

def exResolutionA : ResolutionData :=
  { attributes := { ip_address := "1.1.1.1", stats := "harmless", date := "2022-01-01" } }

def exResolutionB : ResolutionData :=
  { attributes := { ip_address := "2.2.2.2", stats := "harmless", date := "2022-01-02" } }

def exRs2 : Resolutions :=
  { data := [exResolutionA, exResolutionB], meta := { count := 2 } }

/-- A provider response whose body reports an ip different from any queried one. -/
def exMismatchRecord : IpWhois :=
  { ip := "9.9.9.9"
    connection := { asn := "19281", org := "Quad9", isp := "Quad9" }
    city := none, region := none, country := none }

/-- Provider that always answers successfully with exMismatchRecord. -/
def exProviderMismatch : Transport :=
  fun _ => Except.ok { success := true, record := exMismatchRecord }

/-- Provider that always answers successfully, echoing the queried IP. -/
def exProviderEcho : Transport :=
  fun ip => Except.ok
    { success := true
      record :=
        { ip := ip
          connection := { asn := "13335", org := "Cloudflare", isp := "Cloudflare" }
          city := none, region := none, country := none } }

/-- The record exProviderEcho returns for 1.1.1.1. -/
def exEchoRecordA : IpWhois :=
  { ip := "1.1.1.1"
    connection := { asn := "13335", org := "Cloudflare", isp := "Cloudflare" }
    city := none, region := none, country := none }

/-- Provider that answers for 1.1.1.1 and hits a transport error elsewhere. -/
def exTransportErr : Transport :=
  fun ip =>
    if ip = "1.1.1.1" then Except.ok { success := true, record := exEchoRecordA }
    else Except.error ()

/-- Claim C1, counterexample: a single resolution 1.1.1.1 with cap 1 and a
successful provider lookup whose response body reports ip 9.9.9.9. The
returned map is keyed by 9.9.9.9, not by the IP of the resolution whose
lookup succeeded, so the keys are not exactly the IPs of the first k
successfully looked-up resolutions. -/
theorem claim_C1_counterexample :
    bulk_get_ipwhois exProviderMismatch
        { data := [exResolutionA], meta := { count := 1 } } 1 =
      Except.ok [("9.9.9.9", exMismatchRecord)] ∧
    successIps exProviderMismatch [exResolutionA] 1 = ["1.1.1.1"] ∧
    ("9.9.9.9" : String) ≠ "1.1.1.1" := by
  refine ⟨rfl, rfl, by decide⟩

/-- Claim C1 (amended): for every provider, resolutions sequence and cap k,
when bulk_get_ipwhois returns a map the map has distinct keys, at most k of
them, and no provider lookup is issued for any resolution beyond the first k;
when moreover every provider response reports the queried IP in its ip field,
the keys are exactly the IPs of the first k resolutions whose lookup
succeeded. -/
theorem claim_C1 (g : Transport) (rs : Resolutions) (k : Nat)
    (m : List (String × IpWhois))
    (hok : bulk_get_ipwhois g rs k = Except.ok m) :
    (mapKeys m).Nodup ∧
    (mapKeys m).length ≤ k ∧
    bulk_get_ipwhois_calls g rs k =
      (rs.data.take k).map (fun r => r.attributes.ip_address) ∧
    (echoes g → ∀ s, s ∈ mapKeys m ↔ s ∈ successIps g rs.data k) := by
  cases hl : bulkLoop g k rs.data 0 [] [] with
  | mk a b =>
    have ha : a = Except.ok m := by
      unfold bulk_get_ipwhois at hok
      rw [hl] at hok
      exact hok
    obtain ⟨hkeys, hcalls, hlen, hnod⟩ :=
      bulkLoop_ok_spec g k rs.data 0 [] [] m b (Nat.zero_le k)
        (by rw [hl, ha])
    have hb : bulk_get_ipwhois_calls g rs k = b := by
      unfold bulk_get_ipwhois_calls
      rw [hl]
    refine ⟨hnod (by simp [mapKeys]), ?_, ?_, ?_⟩
    · simpa [mapKeys] using hlen
    · rw [hb, hcalls]
      simp
    · intro hecho s
      have := hkeys hecho s
      simpa [mapKeys] using this

/-- Claim C1, witness for the amended theorem: the echoing provider on two
resolutions with cap 1 queries exactly the first resolution. -/
theorem claim_C1_witness :
    bulk_get_ipwhois_calls exProviderEcho exRs2 1 =
      (exRs2.data.take 1).map (fun r => r.attributes.ip_address) :=
  (claim_C1 exProviderEcho exRs2 1 [("1.1.1.1", exEchoRecordA)] rfl).2.2.1

/-- Claim C3, counterexample: the first lookup succeeds, the second hits a
transport error within the cap, and bulk_get_ipwhois fails as a whole
instead of omitting that IP and continuing. -/
theorem claim_C3_counterexample :
    get_ipwhois exTransportErr "1.1.1.1" = Except.ok (some exEchoRecordA) ∧
    get_ipwhois exTransportErr "2.2.2.2" = Except.error () ∧
    bulk_get_ipwhois exTransportErr exRs2 2 = Except.error () := by
  refine ⟨rfl, rfl, rfl⟩

/-- Claim C3 (amended): a per-IP no-data response is omitted from the map and
iteration continues with the remaining resolutions, and the bulk operation
cannot fail as long as no within-cap lookup hits a transport error; a
transport error, by contrast, propagates out of bulk_get_ipwhois. -/
theorem claim_C3 (g : Transport) (rs : Resolutions) (k : Nat)
    (hnoerr : ∀ r ∈ rs.data.take k,
      ∃ resp, g r.attributes.ip_address = Except.ok resp) :
    (∃ m, bulk_get_ipwhois g rs k = Except.ok m) ∧
    (∀ (r : ResolutionData) (rest : List ResolutionData) (idx : Nat)
        (m : List (String × IpWhois)) (c : List String),
        idx ≠ k → get_ipwhois g r.attributes.ip_address = Except.ok none →
        bulkLoop g k (r :: rest) idx m c =
          bulkLoop g k rest (idx + 1) m (c ++ [r.attributes.ip_address])) := by
  constructor
  · obtain ⟨mf, cf, h⟩ := bulkLoop_total g k rs.data 0 [] [] (Nat.zero_le k)
      (by simpa using hnoerr)
    refine ⟨mf, ?_⟩
    unfold bulk_get_ipwhois
    rw [h]
  · intro r rest idx m c hidx hg
    simp [bulkLoop, hidx, hg]

/-- Claim C3, witness for the amended theorem: with an error-free provider the
bulk operation does not fail. -/
theorem claim_C3_witness :
    bulk_get_ipwhois exProviderEcho exRs2 2 ≠ Except.error () := by
  obtain ⟨m, hm⟩ := (claim_C3 exProviderEcho exRs2 2 (fun r _ => ⟨_, rfl⟩)).1
  rw [hm]
  simp

/-- Claim C6: with max_ips_to_enrich 0 the bulk enrichment returns the empty
map and issues no provider call at all, for every provider and input. -/
theorem claim_C6 (g : Transport) (rs : Resolutions) :
    bulk_get_ipwhois g rs 0 = Except.ok [] ∧
    bulk_get_ipwhois_calls g rs 0 = [] := by
  cases rs with
  | mk data meta =>
    cases data with
    | nil => exact ⟨rfl, rfl⟩
    | cons r rest => exact ⟨rfl, rfl⟩

/-- Claim C6, witness: the echoing provider at cap 0 yields the empty map. -/
theorem claim_C6_witness :
    bulk_get_ipwhois exProviderEcho exRs2 0 = Except.ok [] :=
  (claim_C6 exProviderEcho exRs2).1

/-- Claim C10: every key of the bulk map is the ip field of the stored
response record, while the single-IP path keys its entry by the
caller-supplied ip argument. -/
theorem claim_C10 (g : Transport) (rs : Resolutions) (k : Nat) (ip : String) :
    (∀ m, bulk_get_ipwhois g rs k = Except.ok m →
      ∀ s w, (s, w) ∈ m → s = w.ip) ∧
    (∀ m, single_get_ipwhois g ip = Except.ok m →
      ∀ s w, (s, w) ∈ m → s = ip) := by
  constructor
  · intro m hok s w hsw
    cases hl : bulkLoop g k rs.data 0 [] [] with
    | mk a b =>
      have ha : a = Except.ok m := by
        unfold bulk_get_ipwhois at hok
        rw [hl] at hok
        exact hok
      exact bulkLoop_pairs g k rs.data 0 [] [] m b (by rw [hl, ha])
        (by simp) s w hsw
  · intro m hok s w hsw
    cases hg : get_ipwhois g ip with
    | error e => simp [single_get_ipwhois, hg] at hok
    | ok ow =>
      cases ow with
      | some w2 =>
        simp only [single_get_ipwhois, hg] at hok
        injection hok with h1
        have hone : dictInsert [] ip w2 = [(ip, w2)] := by
          simp [dictInsert, mapKeys]
        rw [← h1, hone] at hsw
        simp at hsw
        exact hsw.1
      | none =>
        simp only [single_get_ipwhois, hg] at hok
        injection hok with h1
        rw [← h1] at hsw
        simp at hsw

/-- Claim C10, witness: the mismatching provider stores its sole bulk entry
under the response's ip field 9.9.9.9, and the single-IP path keys by the
queried 8.8.8.8. -/
theorem claim_C10_witness :
    ("9.9.9.9" : String) = exMismatchRecord.ip ∧
    ("8.8.8.8" : String) = "8.8.8.8" := by
  constructor
  · exact (claim_C10 exProviderMismatch
        { data := [exResolutionA], meta := { count := 1 } } 1 "8.8.8.8").1
      [("9.9.9.9", exMismatchRecord)] rfl "9.9.9.9" exMismatchRecord (by simp)
  · exact (claim_C10 exProviderEcho
        { data := [], meta := { count := 0 } } 0 "8.8.8.8").2
      [("8.8.8.8",
        { ip := "8.8.8.8"
          connection := { asn := "13335", org := "Cloudflare", isp := "Cloudflare" }
          city := none, region := none, country := none })] rfl "8.8.8.8"
      { ip := "8.8.8.8"
        connection := { asn := "13335", org := "Cloudflare", isp := "Cloudflare" }
        city := none, region := none, country := none } (by simp)

/- Embedding of src/wtfis/ui/view.py. -/

/-- Field labels of the rows the views hand to _gen_table. -/
inductive FieldLabel where
  | analysis
  | resolved
  | reputation
  | popularity
  | categories
  | lastModified
  | lastSeen
  | asn
  | isp
  | location
  | os
  | services
  | tags
  | lastScan
deriving DecidableEq, Repr

/-- Modelled from the spec: smart_join (wtfis/utils.py, not in src/). Skip
absent components, join the present ones with the fixed separator, and yield
the absent value only when all components are absent (spec sections 4.3
and 8). -/
def smart_join (items : List (Option String)) : Option String :=
  let present := items.filterMap id
  if present.isEmpty then none else some (String.intercalate ", " present)

/-- Modelled from the spec: iso_date (wtfis/utils.py, not in src/). Date
formatting is opaque to every claim here and is kept as an uninterpreted
rewrite of its input. -/
def iso_date (s : String) : String := s

/-- Modelled from the spec: BaseView._get_ip_enrichment (wtfis/ui/base.py, not
in src/). Lookup of an IP in the EnrichmentMap; absence means no enrichment
available, never an error (spec section 3). -/
def get_ip_enrichment (emap : List (String × Enrichment)) (ip : String) :
    Option Enrichment :=
  (emap.find? (fun p => p.1 == ip)).map Prod.snd

/-- Modelled from the spec: BaseView._gen_shodan_services (wtfis/ui/base.py,
not in src/). An empty service list yields an absent field (spec section 8,
scenario 2). -/
def gen_shodan_services (s : ShodanIp) : Option String :=
  if s.services.isEmpty then none else some (String.intercalate ", " s.services)

/-- Modelled from the spec: GUI base URLs held by BaseView (wtfis/ui/base.py,
not in src/); hyperlinks are simple URL templating, base URL plus identifier
(spec section 4.4). -/
def vt_gui_baseurl_ip : String := "https://virustotal.com/gui/ip-address"

/-- Modelled from the spec: domain-flavoured GUI base URL of BaseView. -/
def vt_gui_baseurl_domain : String := "https://virustotal.com/gui/domain"

/-- One headed field block as assembled by the views: the heading text with
its hyperlink, plus the (label, optional value) rows handed to _gen_table. -/
structure RenderedEntry where
  heading : String
  hyperlink : String
  data : List (FieldLabel × Option String)
deriving DecidableEq, Repr

/-- Modelled from the spec: the table built by BaseView._gen_table
(wtfis/ui/base.py, not in src/). Absent fields are omitted rather than
rendered blank (spec section 3). -/
def renderedFields (e : RenderedEntry) : List (FieldLabel × String) :=
  e.data.filterMap (fun p => p.2.map (fun v => (p.1, v)))

/-- Enrichment field rows appended inside DomainView.resolutions_panel
(view.py lines 104-128); IpAddressView.ip_panel (lines 216-240) appends the
same rows. The IpWhois branch adds ASN, ISP and Location; the Shodan branch
additionally adds OS, Services, Tags and Last Scan. -/
def enrich_fields (enrich : Option Enrichment) : List (FieldLabel × Option String) :=
  match enrich with
  | none => []
  | some (Enrichment.ipwhois w) =>
      [(FieldLabel.asn, some (w.connection.asn ++ " (" ++ w.connection.org ++ ")")),
       (FieldLabel.isp, some w.connection.isp),
       (FieldLabel.location, smart_join [w.city, w.region, w.country])]
  | some (Enrichment.shodan s) =>
      [(FieldLabel.asn,
         s.asn.map (fun a => (a.replace "AS" "") ++ " (" ++ s.org ++ ")")),
       (FieldLabel.isp, some s.isp),
       (FieldLabel.location, smart_join [s.city, s.region_name, s.country_name]),
       (FieldLabel.os, s.os),
       (FieldLabel.services, gen_shodan_services s),
       (FieldLabel.tags, if s.tags.isEmpty then none else smart_join (s.tags.map some)),
       (FieldLabel.lastScan, some (iso_date (s.last_update ++ "+00:00")))]

/-- One resolution block of DomainView.resolutions_panel (view.py lines
86-142): heading is the resolved IP (hyperlinked to the VT GUI), with the
Analysis and Resolved rows followed by the enrichment projection for that
IP. -/
def resolution_entry (emap : List (String × Enrichment))
    (attrs : ResolutionAttributes) : RenderedEntry :=
  { heading := attrs.ip_address
    hyperlink := vt_gui_baseurl_ip ++ "/" ++ attrs.ip_address
    data :=
      [(FieldLabel.analysis, some attrs.stats),
       (FieldLabel.resolved, some (iso_date attrs.date))] ++
      enrich_fields (get_ip_enrichment emap attrs.ip_address) }

/-- Items appended to the content list of DomainView.resolutions_panel: a
rendered resolution block, the blank separator line, or the +N more footer. -/
inductive PanelItem where
  | entry (e : RenderedEntry)
  | sep
  | more (n : Nat)
deriving DecidableEq, Repr

/-- Loop of DomainView.resolutions_panel (view.py lines 83-149): the break
fires when idx reaches max_resolutions; after each block a blank separator is
appended when the block is neither the last one the cap allows nor the last
fetched one (totalLen is the length of the full fetched list). -/
def resolutionsLoop (emap : List (String × Enrichment)) (maxRes totalLen : Nat) :
    List ResolutionData → Nat → List PanelItem
  | [], _ => []
  | r :: rest, idx =>
    if idx = maxRes then []
    else
      PanelItem.entry (resolution_entry emap r.attributes) ::
      ((if idx < maxRes - 1 ∧ idx < totalLen - 1 then [PanelItem.sep] else []) ++
        resolutionsLoop emap maxRes totalLen rest (idx + 1))

/-- DomainView.resolutions_panel (view.py lines 77-166): none when there is no
resolutions data; otherwise the loop content, a +N more footer when
max_resolutions < meta.count, and none again when the content stays empty. -/
def resolutions_panel (resolutions : Option Resolutions)
    (emap : List (String × Enrichment)) (maxRes : Nat) : Option (List PanelItem) :=
  match resolutions with
  | none => none
  | some rs =>
    let base := resolutionsLoop emap maxRes rs.data.length rs.data 0
    let content :=
      if maxRes < rs.meta.count then
        base ++ [PanelItem.more (rs.meta.count - maxRes)]
      else base
    if content.isEmpty then none else some content

/-- Attributes of a Domain entity (models/virustotal.py fields read by
DomainView.domain_panel); analysis, reputation and popularity are kept as
their pre-rendered texts since the _gen helpers live in wtfis/ui/base.py,
outside src/. -/
structure DomainAttributes where
  stats : String
  reputation : String
  popularity : Option String
  categories : List String
  last_modification_date : String
  last_dns_records_date : String
deriving DecidableEq, Repr

/-- Data block of a Domain entity. -/
structure DomainData where
  id_ : String
  attributes : DomainAttributes
deriving DecidableEq, Repr

/-- Domain entity model. -/
structure Domain where
  data : DomainData
deriving DecidableEq, Repr

/-- DomainView.domain_panel (view.py lines 41-75). -/
def domain_panel_entry (entity : Domain) : RenderedEntry :=
  { heading := entity.data.id_
    hyperlink := vt_gui_baseurl_domain ++ "/" ++ entity.data.id_
    data :=
      [(FieldLabel.analysis, some entity.data.attributes.stats),
       (FieldLabel.reputation, some entity.data.attributes.reputation),
       (FieldLabel.popularity, entity.data.attributes.popularity),
       (FieldLabel.categories,
         if entity.data.attributes.categories.isEmpty then none
         else smart_join (entity.data.attributes.categories.map some)),
       (FieldLabel.lastModified,
         some (iso_date entity.data.attributes.last_modification_date)),
       (FieldLabel.lastSeen,
         some (iso_date entity.data.attributes.last_dns_records_date))] }

/-- Attributes of an IpAddress entity (fields read by IpAddressView.ip_panel). -/
structure IpAddressAttributes where
  stats : String
  reputation : String
  last_modification_date : String
deriving DecidableEq, Repr

/-- Data block of an IpAddress entity. -/
structure IpAddressData where
  id_ : String
  attributes : IpAddressAttributes
deriving DecidableEq, Repr

/-- IpAddress entity model. -/
structure IpAddress where
  data : IpAddressData
deriving DecidableEq, Repr

/-- IpAddressView.ip_panel (view.py lines 194-248): Analysis, Reputation and
Last Modified rows, then the enrichment projection looked up under the entity
identifier. -/
def ip_panel_entry (entity : IpAddress) (emap : List (String × Enrichment)) :
    RenderedEntry :=
  { heading := entity.data.id_
    hyperlink := vt_gui_baseurl_ip ++ "/" ++ entity.data.id_
    data :=
      [(FieldLabel.analysis, some entity.data.attributes.stats),
       (FieldLabel.reputation, some entity.data.attributes.reputation),
       (FieldLabel.lastModified,
         some (iso_date entity.data.attributes.last_modification_date))] ++
      enrich_fields (get_ip_enrichment emap entity.data.id_) }

/-- Whois data, opaque to every claim treated here. -/
structure Whois where
  text : String
deriving DecidableEq, Repr

/-- The panels a view hands to the console. -/
inductive Panel where
  | virustotal (e : RenderedEntry)
  | resolutions (items : List PanelItem)
  | ip (e : RenderedEntry)
  | whois (w : Whois)
deriving DecidableEq, Repr

/-- Modelled from the spec: BaseView.whois_panel (wtfis/ui/base.py, not in
src/). The whois section is present whenever whois data exists, regardless of
variant (spec section 4.3). -/
def whois_panel (w : Option Whois) : Option Panel :=
  w.map Panel.whois

/-- DomainView.print (view.py lines 168-178): the non-None panels, in order
domain, resolutions, whois. -/
def domainView_renderables (entity : Domain) (resolutions : Option Resolutions)
    (whois : Option Whois) (emap : List (String × Enrichment)) (maxRes : Nat) :
    List Panel :=
  [some (Panel.virustotal (domain_panel_entry entity)),
   (resolutions_panel resolutions emap maxRes).map Panel.resolutions,
   whois_panel whois].filterMap id

/-- IpAddressView.print (view.py lines 250-259): the non-None panels, in
order ip, whois. -/
def ipAddressView_renderables (entity : IpAddress) (whois : Option Whois)
    (emap : List (String × Enrichment)) : List Panel :=
  [some (Panel.ip (ip_panel_entry entity emap)),
   whois_panel whois].filterMap id

/-- The rendered resolution blocks of a content list, in order. -/
def panelEntries : List PanelItem → List RenderedEntry
  | [] => []
  | PanelItem.entry e :: rest => e :: panelEntries rest
  | PanelItem.sep :: rest => panelEntries rest
  | PanelItem.more _ :: rest => panelEntries rest

/-- Number of blank separator lines in a content list. -/
def countSeps : List PanelItem → Nat
  | [] => 0
  | PanelItem.sep :: rest => countSeps rest + 1
  | PanelItem.entry _ :: rest => countSeps rest
  | PanelItem.more _ :: rest => countSeps rest

/-- Entries interleaved with single separators: one separator between two
consecutive entries, none trailing. -/
def sepList : List RenderedEntry → List PanelItem
  | [] => []
  | [e] => [PanelItem.entry e]
  | e :: e2 :: rest => PanelItem.entry e :: PanelItem.sep :: sepList (e2 :: rest)

/- Lemmas about the resolutions panel content. -/

theorem panelEntries_append (a b : List PanelItem) :
    panelEntries (a ++ b) = panelEntries a ++ panelEntries b := by
  induction a with
  | nil => rfl
  | cons x rest ih =>
    cases x <;> simp [panelEntries, ih]

theorem countSeps_append (a b : List PanelItem) :
    countSeps (a ++ b) = countSeps a + countSeps b := by
  induction a with
  | nil => simp [countSeps]
  | cons x rest ih =>
    cases x with
    | entry e => simp [countSeps, ih]
    | sep =>
      simp [countSeps, ih]
      omega
    | more n => simp [countSeps, ih]

theorem panelEntries_sepList (es : List RenderedEntry) :
    panelEntries (sepList es) = es := by
  induction es with
  | nil => rfl
  | cons e rest ih =>
    cases rest with
    | nil => rfl
    | cons e2 rest2 =>
      simp only [sepList, panelEntries]
      rw [ih]

theorem countSeps_sepList (es : List RenderedEntry) :
    countSeps (sepList es) = es.length - 1 := by
  induction es with
  | nil => rfl
  | cons e rest ih =>
    cases rest with
    | nil => rfl
    | cons e2 rest2 =>
      simp only [sepList, countSeps]
      rw [ih]
      simp

theorem more_not_mem_sepList (es : List RenderedEntry) (n : Nat) :
    PanelItem.more n ∉ sepList es := by
  induction es with
  | nil => simp [sepList]
  | cons e rest ih =>
    cases rest with
    | nil => simp [sepList]
    | cons e2 rest2 =>
      simp only [sepList, List.mem_cons]
      rintro (h | h | h)
      · cases h
      · cases h
      · exact ih h

theorem sepList_eq_nil_iff (es : List RenderedEntry) :
    sepList es = [] ↔ es = [] := by
  cases es with
  | nil => simp [sepList]
  | cons e rest =>
    cases rest with
    | nil => simp [sepList]
    | cons e2 rest2 => simp [sepList]

/-- The resolutions loop builds exactly the first max-allowed blocks
interleaved with single separators: one between two consecutive blocks, none
trailing. -/
theorem resolutionsLoop_eq_sepList (emap : List (String × Enrichment))
    (maxRes : Nat) :
    ∀ (l : List ResolutionData) (idx totalLen : Nat),
      idx ≤ maxRes → totalLen = idx + l.length →
      resolutionsLoop emap maxRes totalLen l idx =
        sepList ((l.take (maxRes - idx)).map
          (fun r => resolution_entry emap r.attributes)) := by
  intro l
  induction l with
  | nil =>
    intro idx totalLen _ _
    simp [resolutionsLoop, sepList]
  | cons r rest ih =>
    intro idx totalLen hidx htl
    by_cases hb : idx = maxRes
    · simp [resolutionsLoop, hb, Nat.sub_self, sepList]
    · have hlt : idx < maxRes := lt_of_le_of_ne hidx hb
      have htake : (r :: rest).take (maxRes - idx) =
          r :: rest.take (maxRes - (idx + 1)) := by
        rw [show maxRes - idx = (maxRes - (idx + 1)) + 1 by omega, List.take_succ_cons]
      have hrec : resolutionsLoop emap maxRes totalLen rest (idx + 1) =
          sepList ((rest.take (maxRes - (idx + 1))).map
            (fun r => resolution_entry emap r.attributes)) :=
        ih (idx + 1) totalLen hlt (by simp at htl; omega)
      rw [htake]
      simp only [resolutionsLoop, if_neg hb, hrec, List.map_cons]
      cases hre : rest.take (maxRes - (idx + 1)) with
      | nil =>
        have hcond : ¬(idx < maxRes - 1 ∧ idx < totalLen - 1) := by
          rcases List.take_eq_nil_iff.mp hre with h0 | h0
          · intro hc
            omega
          · intro hc
            rw [h0] at htl
            simp at htl
            omega
        rw [if_neg hcond]
        simp [sepList]
      | cons x xs =>
        have hn0 : maxRes - (idx + 1) ≠ 0 := by
          intro h0
          rw [h0] at hre
          simp at hre
        have hrne : rest ≠ [] := by
          intro h0
          rw [h0] at hre
          simp at hre
        have hcond : idx < maxRes - 1 ∧ idx < totalLen - 1 := by
          constructor
          · omega
          · have : 1 ≤ rest.length := by
              cases rest with
              | nil => exact absurd rfl hrne
              | cons y ys => simp
            simp at htl
            omega
        rw [if_pos hcond]
        simp [sepList]

/-- Full content of the resolutions panel, as characterized below. -/
def panelContent (emap : List (String × Enrichment)) (rs : Resolutions)
    (maxRes : Nat) : List PanelItem :=
  sepList ((rs.data.take maxRes).map (fun r => resolution_entry emap r.attributes)) ++
    (if maxRes < rs.meta.count then [PanelItem.more (rs.meta.count - maxRes)] else [])

theorem resolutions_panel_some (emap : List (String × Enrichment))
    (rs : Resolutions) (maxRes : Nat) :
    resolutions_panel (some rs) emap maxRes =
      if panelContent emap rs maxRes = [] then none
      else some (panelContent emap rs maxRes) := by
  have hloop := resolutionsLoop_eq_sepList emap maxRes rs.data 0 rs.data.length
    (Nat.zero_le _) (by simp)
  rw [Nat.sub_zero] at hloop
  simp only [resolutions_panel, hloop, panelContent]
  by_cases hm : maxRes < rs.meta.count
  · rw [if_pos hm, if_pos hm]
    by_cases hc : (sepList ((rs.data.take maxRes).map
        (fun r => resolution_entry emap r.attributes)) ++
          [PanelItem.more (rs.meta.count - maxRes)]) = []
    · simp at hc
    · rw [if_neg hc]
      rw [if_neg (fun hemp => hc (List.isEmpty_iff.mp hemp))]
  · rw [if_neg hm, if_neg hm]
    by_cases hc : sepList ((rs.data.take maxRes).map
        (fun r => resolution_entry emap r.attributes)) ++ ([] : List PanelItem) = []
    · rw [if_pos hc]
      rw [List.append_nil] at hc
      rw [if_pos (List.isEmpty_iff.mpr hc)]
    · rw [if_neg hc]
      rw [List.append_nil] at hc
      rw [if_neg (fun hemp => hc (List.isEmpty_iff.mp hemp))]
      rw [List.append_nil]

theorem resolutions_panel_getD (emap : List (String × Enrichment))
    (rs : Resolutions) (maxRes : Nat) :
    (resolutions_panel (some rs) emap maxRes).getD [] = panelContent emap rs maxRes := by
  rw [resolutions_panel_some]
  by_cases hc : panelContent emap rs maxRes = []
  · rw [if_pos hc, hc]
    rfl
  · rw [if_neg hc]
    rfl

theorem panelEntries_panelContent (emap : List (String × Enrichment))
    (rs : Resolutions) (maxRes : Nat) :
    panelEntries (panelContent emap rs maxRes) =
      (rs.data.take maxRes).map (fun r => resolution_entry emap r.attributes) := by
  unfold panelContent
  rw [panelEntries_append, panelEntries_sepList]
  by_cases hm : maxRes < rs.meta.count
  · rw [if_pos hm]
    simp [panelEntries]
  · rw [if_neg hm]
    simp [panelEntries]

theorem more_mem_panelContent (emap : List (String × Enrichment))
    (rs : Resolutions) (maxRes n : Nat) :
    PanelItem.more n ∈ panelContent emap rs maxRes ↔
      maxRes < rs.meta.count ∧ n = rs.meta.count - maxRes := by
  unfold panelContent
  rw [List.mem_append]
  constructor
  · rintro (h | h)
    · exact absurd h (more_not_mem_sepList _ _)
    · by_cases hm : maxRes < rs.meta.count
      · rw [if_pos hm] at h
        rcases List.mem_singleton.mp h with he
        exact ⟨hm, by injection he⟩
      · rw [if_neg hm] at h
        simp at h
  · rintro ⟨hm, rfl⟩
    right
    rw [if_pos hm]
    simp

theorem mem_renderedFields {e : RenderedEntry} {l : FieldLabel} {v : String} :
    (l, v) ∈ renderedFields e ↔ (l, some v) ∈ e.data := by
  unfold renderedFields
  rw [List.mem_filterMap]
  constructor
  · rintro ⟨p, hp, hpe⟩
    cases p with
    | mk pl pv =>
      cases pv with
      | none => simp at hpe
      | some x =>
        simp at hpe
        rw [← hpe.1, ← hpe.2]
        exact hp
  · intro h
    exact ⟨(l, some v), h, rfl⟩

/-- When every record of the map is the geolocation-only variant, the
enrichment projection only ever produces ASN, ISP and Location rows. -/
theorem enrich_fields_geo {emap : List (String × Enrichment)}
    (hgeo : ∀ p ∈ emap, ∃ w, p.2 = Enrichment.ipwhois w) (ip : String) :
    ∀ l v, (l, v) ∈ enrich_fields (get_ip_enrichment emap ip) →
      l = FieldLabel.asn ∨ l = FieldLabel.isp ∨ l = FieldLabel.location := by
  intro l v hl
  cases hme : get_ip_enrichment emap ip with
  | none =>
    rw [hme] at hl
    simp [enrich_fields] at hl
  | some en =>
    rw [hme] at hl
    have hmem : ∃ p ∈ emap, p.2 = en := by
      unfold get_ip_enrichment at hme
      cases hf : emap.find? (fun p => p.1 == ip) with
      | none =>
        rw [hf] at hme
        simp at hme
      | some p =>
        rw [hf] at hme
        simp at hme
        exact ⟨p, List.mem_of_find?_eq_some hf, hme⟩
    obtain ⟨p, hp, hpe⟩ := hmem
    obtain ⟨w, hw⟩ := hgeo p hp
    rw [← hpe, hw] at hl
    simp only [enrich_fields, List.mem_cons] at hl
    rcases hl with h | h | h | h
    · exact Or.inl (by injection h)
    · exact Or.inr (Or.inl (by injection h))
    · exact Or.inr (Or.inr (by injection h))
    · simp at h

/- Concrete inputs for the view witnesses. -/

def exViewEmap : List (String × Enrichment) :=
  [("1.1.1.1", Enrichment.ipwhois exEchoRecordA)]

def exIpEntity : IpAddress :=
  { data :=
    { id_ := "1.1.1.1"
      attributes :=
        { stats := "harmless", reputation := "0",
          last_modification_date := "2022-01-01" } } }

def exDomain : Domain :=
  { data :=
    { id_ := "example.com"
      attributes :=
        { stats := "harmless", reputation := "0", popularity := none,
          categories := [],
          last_modification_date := "2022-01-01",
          last_dns_records_date := "2022-01-02" } } }

def exWhois : Whois := { text := "registrar data" }

/-- Claim C2: the resolutions panel renders exactly the first
min(max_resolutions, fetched) resolutions in original order; the +N more
footer appears iff max_resolutions < total_count, and then N is
total_count - max_resolutions. -/
theorem claim_C2 (emap : List (String × Enrichment)) (rs : Resolutions) (m : Nat) :
    panelEntries ((resolutions_panel (some rs) emap m).getD []) =
      (rs.data.take m).map (fun r => resolution_entry emap r.attributes) ∧
    (panelEntries ((resolutions_panel (some rs) emap m).getD [])).length =
      min m rs.data.length ∧
    ((∃ n, PanelItem.more n ∈ (resolutions_panel (some rs) emap m).getD []) ↔
      m < rs.meta.count) ∧
    (∀ n, PanelItem.more n ∈ (resolutions_panel (some rs) emap m).getD [] →
      n = rs.meta.count - m) := by
  rw [resolutions_panel_getD]
  refine ⟨panelEntries_panelContent emap rs m, ?_, ?_, ?_⟩
  · rw [panelEntries_panelContent]
    simp [List.length_take]
  · constructor
    · rintro ⟨n, hn⟩
      exact ((more_mem_panelContent emap rs m n).mp hn).1
    · intro h
      exact ⟨rs.meta.count - m, (more_mem_panelContent emap rs m _).mpr ⟨h, rfl⟩⟩
  · intro n hn
    exact ((more_mem_panelContent emap rs m n).mp hn).2

/-- Claim C2, witness: two fetched resolutions with cap 3 render both, in
order. -/
theorem claim_C2_witness :
    panelEntries ((resolutions_panel
        (some { data := [exResolutionA, exResolutionB], meta := { count := 5 } })
        exViewEmap 3).getD []) =
      (({ data := [exResolutionA, exResolutionB],
          meta := { count := 5 } } : Resolutions).data.take 3).map
        (fun r => resolution_entry exViewEmap r.attributes) :=
  (claim_C2 exViewEmap
    { data := [exResolutionA, exResolutionB], meta := { count := 5 } } 3).1

/-- Claim C4: smart-join keeps a lone present component, is absent when all
components are absent, and joins all-present components with the fixed
separator. -/
theorem claim_C4 :
    smart_join [none, some "b", none] = some "b" ∧
    smart_join [none, none] = none ∧
    smart_join [some "a", some "b", some "c"] = some "a, b, c" := by
  exact ⟨rfl, rfl, rfl⟩

/-- Claim C5: when every enrichment record is the geolocation-only IpWhois
variant, neither a resolutions-panel entry nor the ip panel ever renders an
OS, Services, Tags or Last Scan field. -/
theorem claim_C5 (emap : List (String × Enrichment))
    (hgeo : ∀ p ∈ emap, ∃ w, p.2 = Enrichment.ipwhois w)
    (rs : Resolutions) (m : Nat) (entity : IpAddress) (d : Domain) :
    (∀ items, resolutions_panel (some rs) emap m = some items →
      ∀ e ∈ panelEntries items, ∀ l v, (l, v) ∈ renderedFields e →
        l ∉ [FieldLabel.os, FieldLabel.services, FieldLabel.tags,
             FieldLabel.lastScan]) ∧
    (∀ l v, (l, v) ∈ renderedFields (ip_panel_entry entity emap) →
      l ∉ [FieldLabel.os, FieldLabel.services, FieldLabel.tags,
           FieldLabel.lastScan]) ∧
    (∀ l v, (l, v) ∈ renderedFields (domain_panel_entry d) →
      l ∉ [FieldLabel.os, FieldLabel.services, FieldLabel.tags,
           FieldLabel.lastScan]) := by
  refine ⟨?_, ?_, ?_⟩
  · intro items hitems e he l v hlv
    have hit : items = panelContent emap rs m := by
      rw [resolutions_panel_some] at hitems
      by_cases hc : panelContent emap rs m = []
      · rw [if_pos hc] at hitems
        cases hitems
      · rw [if_neg hc] at hitems
        injection hitems with h1
        exact h1.symm
    subst hit
    rw [panelEntries_panelContent] at he
    obtain ⟨r, _, hre⟩ := List.mem_map.mp he
    rw [← hre] at hlv
    rw [mem_renderedFields] at hlv
    simp only [resolution_entry, List.mem_append, List.mem_cons] at hlv
    rcases hlv with (h | h | h) | h
    · rw [show l = FieldLabel.analysis from by injection h]
      decide
    · rw [show l = FieldLabel.resolved from by injection h]
      decide
    · simp at h
    · rcases enrich_fields_geo hgeo r.attributes.ip_address l (some v) h with
        h2 | h2 | h2 <;> rw [h2] <;> decide
  · intro l v hlv
    rw [mem_renderedFields] at hlv
    simp only [ip_panel_entry, List.mem_append, List.mem_cons] at hlv
    rcases hlv with (h | h | h | h) | h
    · rw [show l = FieldLabel.analysis from by injection h]
      decide
    · rw [show l = FieldLabel.reputation from by injection h]
      decide
    · rw [show l = FieldLabel.lastModified from by injection h]
      decide
    · simp at h
    · rcases enrich_fields_geo hgeo entity.data.id_ l (some v) h with
        h2 | h2 | h2 <;> rw [h2] <;> decide
  · intro l v hlv
    rw [mem_renderedFields] at hlv
    simp only [domain_panel_entry, List.mem_cons] at hlv
    rcases hlv with h | h | h | h | h | h | h
    · rw [show l = FieldLabel.analysis from by injection h]
      decide
    · rw [show l = FieldLabel.reputation from by injection h]
      decide
    · rw [show l = FieldLabel.popularity from by injection h]
      decide
    · rw [show l = FieldLabel.categories from by injection h]
      decide
    · rw [show l = FieldLabel.lastModified from by injection h]
      decide
    · rw [show l = FieldLabel.lastSeen from by injection h]
      decide
    · simp at h

/-- Claim C5, witness: a geolocation-only map over the sample inputs; the
ASN row of the ip panel is rendered and is none of the service-rich labels. -/
theorem claim_C5_witness :
    FieldLabel.asn ∉ [FieldLabel.os, FieldLabel.services, FieldLabel.tags,
      FieldLabel.lastScan] :=
  (claim_C5 exViewEmap
    (by
      intro p hp
      simp only [exViewEmap, List.mem_singleton] at hp
      exact ⟨exEchoRecordA, by rw [hp]⟩)
    exRs2 3 exIpEntity exDomain).2.1 FieldLabel.asn "13335 (Cloudflare)" (by decide)

/-- Claim C7: with at least one rendered resolution, the panel content holds
exactly one fewer separator than entries, every separator sits between two
consecutive entries and none trails the last entry: the content is the
entries interleaved with single separators, followed only by the optional
+N more footer. -/
theorem claim_C7 (emap : List (String × Enrichment)) (rs : Resolutions) (m : Nat)
    (_h : 1 ≤ (panelEntries ((resolutions_panel (some rs) emap m).getD [])).length) :
    countSeps ((resolutions_panel (some rs) emap m).getD []) =
      (panelEntries ((resolutions_panel (some rs) emap m).getD [])).length - 1 ∧
    (resolutions_panel (some rs) emap m).getD [] =
      sepList (panelEntries ((resolutions_panel (some rs) emap m).getD [])) ++
        (if m < rs.meta.count then [PanelItem.more (rs.meta.count - m)] else []) := by
  rw [resolutions_panel_getD, panelEntries_panelContent]
  constructor
  · unfold panelContent
    rw [countSeps_append, countSeps_sepList]
    by_cases hm : m < rs.meta.count
    · rw [if_pos hm]
      simp [countSeps]
    · rw [if_neg hm]
      simp [countSeps]
  · rfl

/-- Claim C7, witness: two rendered resolutions give one separator and a
trailing +2 more footer only. -/
theorem claim_C7_witness :
    countSeps ((resolutions_panel
        (some { data := [exResolutionA, exResolutionB], meta := { count := 5 } })
        exViewEmap 3).getD []) =
      (panelEntries ((resolutions_panel
        (some { data := [exResolutionA, exResolutionB], meta := { count := 5 } })
        exViewEmap 3).getD [])).length - 1 :=
  (claim_C7 exViewEmap
    { data := [exResolutionA, exResolutionB], meta := { count := 5 } } 3
    (by decide)).1

/-- Claim C8: a rendered resolution whose IP is absent from the enrichment
map still renders the Analysis and Resolved rows, renders no enrichment
field at all, and its construction is total. -/
theorem claim_C8 (emap : List (String × Enrichment)) (attrs : ResolutionAttributes)
    (h : get_ip_enrichment emap attrs.ip_address = none) :
    resolution_entry emap attrs =
      { heading := attrs.ip_address
        hyperlink := vt_gui_baseurl_ip ++ "/" ++ attrs.ip_address
        data := [(FieldLabel.analysis, some attrs.stats),
                 (FieldLabel.resolved, some (iso_date attrs.date))] } ∧
    renderedFields (resolution_entry emap attrs) =
      [(FieldLabel.analysis, attrs.stats),
       (FieldLabel.resolved, iso_date attrs.date)] ∧
    (∀ l v, (l, v) ∈ renderedFields (resolution_entry emap attrs) →
      l ∉ [FieldLabel.asn, FieldLabel.isp, FieldLabel.location, FieldLabel.os,
           FieldLabel.services, FieldLabel.tags, FieldLabel.lastScan]) := by
  have h1 : resolution_entry emap attrs =
      { heading := attrs.ip_address
        hyperlink := vt_gui_baseurl_ip ++ "/" ++ attrs.ip_address
        data := [(FieldLabel.analysis, some attrs.stats),
                 (FieldLabel.resolved, some (iso_date attrs.date))] } := by
    simp [resolution_entry, h, enrich_fields]
  refine ⟨h1, ?_, ?_⟩
  · rw [h1]
    rfl
  · intro l v hlv
    rw [h1, mem_renderedFields] at hlv
    simp only [List.mem_cons] at hlv
    rcases hlv with hb | hb | hb
    · rw [show l = FieldLabel.analysis from by injection hb]
      decide
    · rw [show l = FieldLabel.resolved from by injection hb]
      decide
    · simp at hb

/-- Claim C8, witness: the empty enrichment map at a sample resolution. -/
theorem claim_C8_witness :
    resolution_entry [] exResolutionA.attributes =
      { heading := exResolutionA.attributes.ip_address
        hyperlink := vt_gui_baseurl_ip ++ "/" ++ exResolutionA.attributes.ip_address
        data := [(FieldLabel.analysis, some exResolutionA.attributes.stats),
                 (FieldLabel.resolved,
                   some (iso_date exResolutionA.attributes.date))] } :=
  (claim_C8 [] exResolutionA.attributes rfl).1

/-- Claim C9: the bare-IP flow assembles exactly the ip panel followed by the
whois panel when whois exists — never a resolutions section — while the
domain flow assembles the domain panel, the resolutions panel when present,
and the whois panel, in that order. -/
theorem claim_C9 (entity : IpAddress) (d : Domain) (res : Option Resolutions)
    (whois : Option Whois) (emap : List (String × Enrichment)) (m : Nat) :
    ipAddressView_renderables entity whois emap =
      Panel.ip (ip_panel_entry entity emap) :: (whois.map Panel.whois).toList ∧
    (∀ p ∈ ipAddressView_renderables entity whois emap,
      ∀ items, p ≠ Panel.resolutions items) ∧
    domainView_renderables d res whois emap m =
      Panel.virustotal (domain_panel_entry d) ::
        (((resolutions_panel res emap m).map Panel.resolutions).toList ++
          (whois.map Panel.whois).toList) := by
  refine ⟨?_, ?_, ?_⟩
  · cases whois <;> simp [ipAddressView_renderables, whois_panel]
  · intro p hp items
    cases whois with
    | none =>
      simp [ipAddressView_renderables, whois_panel] at hp
      rw [hp]
      simp
    | some w =>
      simp [ipAddressView_renderables, whois_panel] at hp
      rcases hp with hp | hp <;> rw [hp] <;> simp
  · cases whois <;> cases hr : resolutions_panel res emap m <;>
      simp [domainView_renderables, whois_panel, hr]

/-- Claim C9, witness: the bare-IP flow at sample inputs yields the ip panel
followed by the whois panel. -/
theorem claim_C9_witness :
    ipAddressView_renderables exIpEntity (some exWhois) exViewEmap =
      Panel.ip (ip_panel_entry exIpEntity exViewEmap) ::
        ((some exWhois).map Panel.whois).toList :=
  (claim_C9 exIpEntity exDomain none (some exWhois) exViewEmap 0).1

end Wtfis
